import Mathlib

/-!
Shallow embedding of the GymBuddy server (Express + better-sqlite3).

Each SQLite table is a list of rows kept in `rowid` (insertion) order:
`INSERT` appends, `UPDATE` maps, `DELETE` filters, and `SELECT ... ORDER BY`
sorts with an explicit total relation.  Nullable columns are `Option`;
SQLite `INTEGER` is `ℤ` (timestamps from `Date.now()` are `ℕ`), `REAL` is
`ℚ`, and `TEXT` is `String` compared bytewise (UTF-8 byte order coincides
with code-point order, i.e. with the order on `String.data`).  `Date.now()`
is modelled by an explicit time parameter passed to every handler, and the
`nanoid` identifiers by explicit identifier parameters.
-/

namespace Gym

/-- JavaScript truthiness of an optional string field of a JSON payload:
an absent field and the empty string are falsy, every other string truthy. -/
def truthy : Option String → Bool
  | none => false
  | some s => s ≠ ""

/-- JavaScript `String.prototype.trim`: drop whitespace from both ends. -/
def jsTrim (s : String) : String :=
  ⟨((s.data.dropWhile Char.isWhitespace).reverse.dropWhile Char.isWhitespace).reverse⟩

/-- JavaScript `a || d` for an optional string `a` and default `d`. -/
def orDefault (o : Option String) (d : String) : String :=
  match o with
  | none => d
  | some s => if s = "" then d else s

/-- Row of the `exercises` table. -/
structure ExerciseRow where
  id : String
  name : String
  image : Option String
  bodyPart : Option String
  primaryMuscles : Option String
  secondaryMuscles : Option String
  equipment : Option String
  isCustom : ℤ
deriving Repr, DecidableEq

/-- Row of the `routines` table. -/
structure RoutineRow where
  id : String
  name : String
  createdAt : ℕ
  updatedAt : ℕ
deriving Repr, DecidableEq

/-- Row of the `routine_exercises` table. -/
structure RoutineExerciseRow where
  id : String
  routine_id : String
  exercise_id : String
  order_index : ℤ
deriving Repr, DecidableEq

/-- Row of the `routine_sets` table. -/
structure RoutineSetRow where
  id : String
  routine_exercise_id : String
  reps : Option ℤ
  peso : Option ℚ
deriving Repr, DecidableEq

/-- Row of the `workouts` table. -/
structure WorkoutRow where
  id : String
  routine_id : Option String
  startedAt : Option ℤ
  finishedAt : Option ℤ
  durationSec : Option ℤ
deriving Repr, DecidableEq

/-- Row of the `workout_items` table (denormalized exercise snapshot). -/
structure WorkoutItemRow where
  id : String
  workout_id : String
  exercise_id : Option String
  name : Option String
  bodyPart : Option String
  image : Option String
  order_index : ℕ
deriving Repr, DecidableEq

/-- Row of the `workout_sets` table. -/
structure WorkoutSetRow where
  id : String
  workout_item_id : String
  reps : Option ℤ
  peso : Option ℚ
  done : Bool
deriving Repr, DecidableEq

/-- The whole SQLite database: one list of rows per table, in rowid order. -/
structure DB where
  exercises : List ExerciseRow
  routines : List RoutineRow
  routine_exercises : List RoutineExerciseRow
  routine_sets : List RoutineSetRow
  workouts : List WorkoutRow
  workout_items : List WorkoutItemRow
  workout_sets : List WorkoutSetRow
deriving Repr, DecidableEq

/-- An empty database. -/
def DB.empty : DB := ⟨[], [], [], [], [], [], []⟩

/-- `UPDATE routines SET updatedAt=? WHERE id=?` with timestamp `t`. -/
def touchRoutine (db : DB) (id : String) (t : ℕ) : DB :=
  { db with routines := db.routines.map fun r =>
      if r.id = id then { r with updatedAt := t } else r }

/-- `SELECT updatedAt FROM routines WHERE id=?` (first matching row). -/
def updatedAt? (db : DB) (id : String) : Option ℕ :=
  (db.routines.find? fun r => decide (r.id = id)).map fun r => r.updatedAt

/-- Payload of `POST /api/exercises`. -/
structure ExercisePayload where
  name : Option String
  image : Option String
  bodyPart : Option String
  primaryMuscles : Option String
  secondaryMuscles : Option String
  equipment : Option String
deriving Repr, DecidableEq

/-- `POST /api/exercises`: reject when `p.name` is JS-falsy, else insert a
custom exercise whose name is trimmed and whose other fields default to
the empty string. -/
def createExercise (db : DB) (newId : String) (p : ExercisePayload) :
    Except String (ExerciseRow × DB) :=
  if truthy p.name then
    let ex : ExerciseRow :=
      { id := newId, name := jsTrim (p.name.getD ""),
        image := some (orDefault p.image ""), bodyPart := some (orDefault p.bodyPart ""),
        primaryMuscles := some (orDefault p.primaryMuscles ""),
        secondaryMuscles := some (orDefault p.secondaryMuscles ""),
        equipment := some (orDefault p.equipment ""), isCustom := 1 }
    .ok (ex, { db with exercises := db.exercises ++ [ex] })
  else .error "name required"

/-- `POST /api/routines`: insert a routine named `name || "Rutina"` with
both timestamps `t`. -/
def createRoutine (db : DB) (newId : String) (name : Option String) (t : ℕ) : DB :=
  { db with routines := db.routines ++
      [{ id := newId, name := orDefault name "Rutina", createdAt := t, updatedAt := t }] }

/-- Exercise subobject returned by `loadRoutineFull` (drops `isCustom`). -/
structure ExerciseView where
  id : String
  name : String
  image : Option String
  bodyPart : Option String
  primaryMuscles : Option String
  secondaryMuscles : Option String
  equipment : Option String
deriving Repr, DecidableEq

/-- Set subobject returned by `loadRoutineFull`. -/
structure SetView where
  id : String
  reps : Option ℤ
  peso : Option ℚ
deriving Repr, DecidableEq

/-- Routine-exercise subobject returned by `loadRoutineFull`. -/
structure RexView where
  id : String
  order_index : ℤ
  exercise : ExerciseView
  sets : List SetView
deriving Repr, DecidableEq

/-- Full routine shape returned by `loadRoutineFull`. -/
structure RoutineFull where
  id : String
  name : String
  createdAt : ℕ
  updatedAt : ℕ
  exercises : List RexView
deriving Repr, DecidableEq

/-- The join `routine_exercises JOIN exercises ON e.id = re.exercise_id`
restricted to one routine, in table order (before `ORDER BY`). -/
def rexJoin (db : DB) (id : String) : List (RoutineExerciseRow × ExerciseRow) :=
  (db.routine_exercises.filter fun re => decide (re.routine_id = id)).flatMap fun re =>
    (db.exercises.filter fun e => decide (e.id = re.exercise_id)).map fun e => (re, e)

/-- `ORDER BY re.order_index ASC, re.id ASC` on the joined rows. -/
def rexLe (a b : RoutineExerciseRow × ExerciseRow) : Prop :=
  a.1.order_index < b.1.order_index ∨
    (a.1.order_index = b.1.order_index ∧ a.1.id.data ≤ b.1.id.data)

instance : DecidableRel rexLe := fun a b => by
  unfold rexLe; infer_instance

instance : IsTotal (RoutineExerciseRow × ExerciseRow) rexLe where
  total a b := by
    rcases lt_trichotomy a.1.order_index b.1.order_index with h | h | h
    · exact Or.inl (Or.inl h)
    · rcases le_total a.1.id.data b.1.id.data with h2 | h2
      · exact Or.inl (Or.inr ⟨h, h2⟩)
      · exact Or.inr (Or.inr ⟨h.symm, h2⟩)
    · exact Or.inr (Or.inl h)

instance : IsTrans (RoutineExerciseRow × ExerciseRow) rexLe where
  trans a b c hab hbc := by
    rcases hab with h1 | ⟨h1, h1d⟩ <;> rcases hbc with h2 | ⟨h2, h2d⟩
    · exact Or.inl (h1.trans h2)
    · exact Or.inl (h2 ▸ h1)
    · exact Or.inl (h1 ▸ h2)
    · exact Or.inr ⟨h1.trans h2, h1d.trans h2d⟩

/-- `loadRoutineFull`: the routine row joined with its ordered exercises
(each with catalog fields) and their sets in insertion (rowid) order. -/
def loadRoutineFull (db : DB) (id : String) : Option RoutineFull :=
  match db.routines.find? (fun r => decide (r.id = id)) with
  | none => none
  | some r =>
    some { id := r.id, name := r.name, createdAt := r.createdAt, updatedAt := r.updatedAt,
           exercises := (List.insertionSort rexLe (rexJoin db id)).map fun p =>
             { id := p.1.id, order_index := p.1.order_index,
               exercise := { id := p.2.id, name := p.2.name, image := p.2.image,
                             bodyPart := p.2.bodyPart, primaryMuscles := p.2.primaryMuscles,
                             secondaryMuscles := p.2.secondaryMuscles, equipment := p.2.equipment },
               sets := (db.routine_sets.filter fun s =>
                   decide (s.routine_exercise_id = p.1.id)).map fun s =>
                 { id := s.id, reps := s.reps, peso := s.peso } } }

/-- One entry of the `sets` array of a `PUT /api/routines/:id` body. -/
structure SetPatch where
  id : Option String
  reps : Option ℤ
  peso : Option ℚ
deriving Repr, DecidableEq

/-- One entry of the `exercises` array of a `PUT /api/routines/:id` body. -/
structure ExPatch where
  sets : Option (List SetPatch)
deriving Repr, DecidableEq

/-- Body of `PUT /api/routines/:id`. -/
structure PutBody where
  name : Option String
  exercises : Option (List ExPatch)
deriving Repr, DecidableEq

/-- One `UPDATE routine_sets SET reps=?, peso=? WHERE id=?`, guarded by
the JS truthiness check `if(s.id)`. -/
def applySetPatch (db : DB) (s : SetPatch) : DB :=
  if truthy s.id then
    { db with routine_sets := db.routine_sets.map fun rs =>
        if rs.id = s.id.getD "" then { rs with reps := s.reps, peso := s.peso } else rs }
  else db

/-- One entry of the `exercises` array of the PUT body: apply its set
patches when `ex.sets` is an array, else do nothing. -/
def applyExPatch (d : DB) (ex : ExPatch) : DB :=
  match ex.sets with
  | some sets => sets.foldl applySetPatch d
  | none => d

/-- `PUT /api/routines/:id`: optional rename (when `body.name` is truthy),
then, when `body.exercises` is an array, apply every provided set patch and
touch `updatedAt` once. -/
def putRoutine (db : DB) (id : String) (body : PutBody) (t : ℕ) : DB :=
  let db1 :=
    if truthy body.name then
      { db with routines := db.routines.map fun r =>
          if r.id = id then { r with name := body.name.getD "", updatedAt := t } else r }
    else db
  match body.exercises with
  | some list => touchRoutine (list.foldl applyExPatch db1) id t
  | none => db1

/-- `DELETE /api/routines/:id/exercises/:rexId`: delete the sets keyed by
the link id alone, delete the link keyed by link id and routine id, then
touch `updatedAt`. -/
def deleteRoutineExercise (db : DB) (id rexId : String) (t : ℕ) : DB :=
  touchRoutine
    { db with
      routine_sets := db.routine_sets.filter fun s =>
        decide (¬ s.routine_exercise_id = rexId),
      routine_exercises := db.routine_exercises.filter fun re =>
        decide (¬ (re.id = rexId ∧ re.routine_id = id)) } id t

/-- `SELECT COALESCE(MAX(order_index),0) FROM routine_exercises WHERE routine_id=?`. -/
def maxOrder (db : DB) (id : String) : ℤ :=
  match (db.routine_exercises.filter fun re =>
      decide (re.routine_id = id)).map (fun re => re.order_index) with
  | [] => 0
  | x :: xs => xs.foldl max x

/-- `POST /api/routines/:id/exercises`: reject when `exerciseId` is JS-falsy,
else insert a link at order position `max + 1`, touch `updatedAt`, and
return the refreshed full routine. -/
def addRoutineExercise (db : DB) (id : String) (exerciseId : Option String)
    (rexId : String) (t : ℕ) : Except String (Option RoutineFull × DB) :=
  if truthy exerciseId then
    let db2 := touchRoutine
      { db with routine_exercises := db.routine_exercises ++
          [{ id := rexId, routine_id := id, exercise_id := exerciseId.getD "",
             order_index := maxOrder db id + 1 }] } id t
    .ok (loadRoutineFull db2 id, db2)
  else .error "exerciseId required"

/-- `POST /api/routines/:id/exercises/:rexId/sets`: insert one set and touch
`updatedAt` (no check that the link exists or belongs to the routine). -/
def addSet (db : DB) (id rexId setId : String) (reps : Option ℤ) (peso : Option ℚ)
    (t : ℕ) : DB :=
  touchRoutine
    { db with routine_sets := db.routine_sets ++
        [{ id := setId, routine_exercise_id := rexId, reps := reps, peso := peso }] } id t

/-- `DELETE /api/routines/:id/exercises/:rexId/sets/:setId`: delete by the
identity pair and touch `updatedAt` unconditionally. -/
def deleteSet (db : DB) (id rexId setId : String) (t : ℕ) : DB :=
  touchRoutine
    { db with routine_sets := db.routine_sets.filter fun s =>
        decide (¬ (s.id = setId ∧ s.routine_exercise_id = rexId)) } id t

/-- One set of a `POST /api/workouts` item (`done` is `st.done ? 1 : 0`). -/
structure WSetPayload where
  reps : Option ℤ
  peso : Option ℚ
  done : Bool
deriving Repr, DecidableEq

/-- One item of a `POST /api/workouts` body (`it.sets || []` makes the
set list total). -/
structure WItemPayload where
  exerciseId : Option String
  name : Option String
  bodyPart : Option String
  image : Option String
  sets : List WSetPayload
deriving Repr, DecidableEq

/-- Body of `POST /api/workouts` (`s.items || []` makes the item list total). -/
structure WorkoutPayload where
  routineId : Option String
  startedAt : Option ℤ
  finishedAt : Option ℤ
  durationSec : Option ℤ
  items : List WItemPayload
deriving Repr, DecidableEq

/-- The inner `forEach` of the workout transaction: insert the sets of one
item in order, with identifiers `sid 0`, `sid 1`, ... . -/
def recordSets (wi : String) (sid : ℕ → String) : ℕ → List WSetPayload → DB → DB
  | _, [], d => d
  | j, st :: rest, d =>
    recordSets wi sid (j + 1) rest
      { d with workout_sets := d.workout_sets ++
          [{ id := sid j, workout_item_id := wi, reps := st.reps, peso := st.peso,
             done := st.done }] }

/-- The outer `forEach` of the workout transaction: insert each item row
with `order_index` equal to its position, then its sets. -/
def recordItems (woId : String) (iid : ℕ → String) (sid : ℕ → ℕ → String) :
    ℕ → List WItemPayload → DB → DB
  | _, [], d => d
  | idx, it :: rest, d =>
    recordItems woId iid sid (idx + 1) rest
      (recordSets (iid idx) (sid idx) 0 it.sets
        { d with workout_items := d.workout_items ++
            [{ id := iid idx, workout_id := woId, exercise_id := it.exerciseId,
               name := it.name, bodyPart := it.bodyPart, image := it.image,
               order_index := idx }] })

/-- `POST /api/workouts`: one transaction inserting the session row, then
every item with its sets.  Fresh identifiers are supplied by `woId`,
`iid` (per item index) and `sid` (per item and set index). -/
def recordWorkout (db : DB) (woId : String) (iid : ℕ → String) (sid : ℕ → ℕ → String)
    (s : WorkoutPayload) : DB :=
  recordItems woId iid sid 0 s.items
    { db with workouts := db.workouts ++
        [{ id := woId, routine_id := s.routineId, startedAt := s.startedAt,
           finishedAt := s.finishedAt, durationSec := s.durationSec }] }

/-- The item rows inserted by `recordItems` from index `idx` on. -/
def workoutItemRows (woId : String) (iid : ℕ → String) (idx : ℕ)
    (items : List WItemPayload) : List WorkoutItemRow :=
  (items.enumFrom idx).map fun p =>
    { id := iid p.1, workout_id := woId, exercise_id := p.2.exerciseId,
      name := p.2.name, bodyPart := p.2.bodyPart, image := p.2.image, order_index := p.1 }

/-- The set rows inserted by `recordSets` for one item, from index `j` on. -/
def workoutSetRowsOf (wi : String) (sid : ℕ → String) (j : ℕ)
    (sets : List WSetPayload) : List WorkoutSetRow :=
  (sets.enumFrom j).map fun q =>
    { id := sid q.1, workout_item_id := wi, reps := q.2.reps, peso := q.2.peso,
      done := q.2.done }

/-- The set rows inserted by `recordItems` from item index `idx` on. -/
def workoutSetRows (iid : ℕ → String) (sid : ℕ → ℕ → String) (idx : ℕ)
    (items : List WItemPayload) : List WorkoutSetRow :=
  (items.enumFrom idx).flatMap fun p => workoutSetRowsOf (iid p.1) (sid p.1) 0 p.2.sets

/-- Every mutating endpoint of the server other than `POST /api/workouts`,
with its JSON payload, fresh identifiers and request timestamp. -/
inductive Mutation where
  | createExercise (newId : String) (p : ExercisePayload)
  | createRoutine (newId : String) (name : Option String) (t : ℕ)
  | putRoutine (id : String) (body : PutBody) (t : ℕ)
  | addExercise (id : String) (exerciseId : Option String) (rexId : String) (t : ℕ)
  | removeExercise (id rexId : String) (t : ℕ)
  | addSet (id rexId setId : String) (reps : Option ℤ) (peso : Option ℚ) (t : ℕ)
  | removeSet (id rexId setId : String) (t : ℕ)
deriving Repr, DecidableEq

/-- Run one mutation against the database (a rejected request leaves the
database unchanged). -/
def applyMutation (db : DB) : Mutation → DB
  | .createExercise newId p =>
    match createExercise db newId p with
    | .ok (_, d) => d
    | .error _ => db
  | .createRoutine newId name t => createRoutine db newId name t
  | .putRoutine id body t => putRoutine db id body t
  | .addExercise id exerciseId rexId t =>
    match addRoutineExercise db id exerciseId rexId t with
    | .ok (_, d) => d
    | .error _ => db
  | .removeExercise id rexId t => deleteRoutineExercise db id rexId t
  | .addSet id rexId setId reps peso t => addSet db id rexId setId reps peso t
  | .removeSet id rexId setId t => deleteSet db id rexId setId t

/-- Run a sequence of mutations in order. -/
def applyAll (db : DB) (ms : List Mutation) : DB := ms.foldl applyMutation db

/-- The set/exercise mutations of routine `R`: the requests that reach the
`UPDATE routines SET updatedAt=?` statement for `R`. -/
def Mutation.touches (R : String) : Mutation → Prop
  | .putRoutine id body _ =>
    id = R ∧ (truthy body.name = true ∨ body.exercises.isSome = true)
  | .addExercise id exerciseId _ _ => id = R ∧ truthy exerciseId = true
  | .removeExercise id _ _ => id = R
  | .addSet id _ _ _ _ _ => id = R
  | .removeSet id _ _ _ => id = R
  | _ => False

/-- The `Date.now()` timestamp a mutation writes into `updatedAt`. -/
def Mutation.time : Mutation → ℕ
  | .createExercise _ _ => 0
  | .createRoutine _ _ t => t
  | .putRoutine _ _ t => t
  | .addExercise _ _ _ t => t
  | .removeExercise _ _ t => t
  | .addSet _ _ _ _ _ t => t
  | .removeSet _ _ _ t => t

/-- One row of the `ranked` common table expression of `GET /api/marks`:
`workout_sets JOIN workout_items ON wi.id = ws.workout_item_id`. -/
structure RankedRow where
  exercise_id : Option String
  name : Option String
  bodyPart : Option String
  image : Option String
  peso : Option ℚ
  reps : Option ℤ
deriving Repr, DecidableEq

/-- The join underlying the `ranked` CTE, in table order. -/
def joinRows (db : DB) : List RankedRow :=
  db.workout_sets.flatMap fun ws =>
    (db.workout_items.filter fun wi => decide (wi.id = ws.workout_item_id)).map fun wi =>
      { exercise_id := wi.exercise_id, name := wi.name, bodyPart := wi.bodyPart,
        image := wi.image, peso := ws.peso, reps := ws.reps }

/-- Sort key of the window `ORDER BY (peso IS NULL) ASC, peso DESC,
(reps IS NULL) ASC, reps DESC`, as a lexicographic product; a smaller key
ranks earlier. -/
def rkey (r : RankedRow) : ℕ ×ₗ ℚ ×ₗ ℕ ×ₗ ℤ :=
  toLex ((if r.peso = none then 1 else 0),
    toLex (-(r.peso.getD 0),
      toLex ((if r.reps = none then 1 else 0), -(r.reps.getD 0))))

/-- The strict rank order of the window: `a` ranks strictly before `b`. -/
def rankLt (a b : RankedRow) : Prop := rkey a < rkey b

instance : DecidableRel rankLt := fun a b => by
  unfold rankLt; infer_instance

/-- Fold of the window over one partition: keep the earlier row unless a
later row ranks strictly before it. -/
def pick (b : RankedRow) : List RankedRow → RankedRow
  | [] => b
  | r :: rs => pick (if rankLt r b then r else b) rs

/-- The row with `ROW_NUMBER() = 1` of one partition, `none` for an empty
partition. -/
def minRank? : List RankedRow → Option RankedRow
  | [] => none
  | b :: rs => some (pick b rs)

/-- The partition of the `ranked` CTE keyed by `exercise_id = k`
(`PARTITION BY wi.exercise_id`; SQL window partitioning puts all NULL keys
in one partition). -/
def partitionOf (db : DB) (k : Option String) : List RankedRow :=
  (joinRows db).filter fun r => decide (r.exercise_id = k)

/-- One output row of `GET /api/marks`. -/
structure MarkRow where
  exercise_id : Option String
  name : Option String
  bodyPart : Option String
  image : Option String
  pr_weight : Option ℚ
  reps_at_pr : ℤ
deriving Repr, DecidableEq

/-- `SELECT exercise_id, name, bodyPart, image, peso AS pr_weight,
COALESCE(reps,0) AS reps_at_pr` applied to a winning ranked row. -/
def mkMark (r : RankedRow) : MarkRow :=
  { exercise_id := r.exercise_id, name := r.name, bodyPart := r.bodyPart,
    image := r.image, pr_weight := r.peso, reps_at_pr := r.reps.getD 0 }

/-- The `rn = 1` rows of the `ranked` CTE, one per partition, before the
final `ORDER BY`. -/
def marksUnsorted (db : DB) : List MarkRow :=
  (((joinRows db).map fun r => r.exercise_id).dedup).filterMap fun k =>
    (minRank? (partitionOf db k)).map mkMark

/-- Order of a nullable `TEXT` column under SQLite `ORDER BY ... ASC`:
NULL sorts first, text bytewise ascending. -/
def optNameLe : Option String → Option String → Prop
  | none, _ => True
  | some _, none => False
  | some x, some y => x.data ≤ y.data

instance : DecidableRel optNameLe := fun x y =>
  match x, y with
  | none, _ => isTrue trivial
  | some _, none => isFalse fun h => h
  | some a, some b => inferInstanceAs (Decidable (a.data ≤ b.data))

theorem optNameLe_total (x y : Option String) : optNameLe x y ∨ optNameLe y x := by
  cases x <;> cases y <;> simp [optNameLe]
  exact le_total _ _

theorem optNameLe_trans {x y z : Option String}
    (h1 : optNameLe x y) (h2 : optNameLe y z) : optNameLe x z := by
  cases x <;> cases y <;> cases z <;> simp_all [optNameLe]
  exact h1.trans h2

/-- Final `ORDER BY name ASC` of `GET /api/marks`. -/
def nameLe (a b : MarkRow) : Prop := optNameLe a.name b.name

instance : DecidableRel nameLe := fun a b =>
  inferInstanceAs (Decidable (optNameLe a.name b.name))

instance : IsTotal MarkRow nameLe where
  total a b := optNameLe_total a.name b.name

instance : IsTrans MarkRow nameLe where
  trans _ _ _ hab hbc := optNameLe_trans hab hbc

/-- `GET /api/marks`: the personal-record rows, sorted by name ascending. -/
def marks (db : DB) : List MarkRow := List.insertionSort nameLe (marksUnsorted db)

/-! ### Generic helper lemmas -/

theorem foldl_pres {α β γ : Type _} (f : β → α → β) (g : β → γ)
    (h : ∀ b a, g (f b a) = g b) : ∀ (l : List α) (b : β), g (l.foldl f b) = g b := by
  intro l
  induction l with
  | nil => intro b; rfl
  | cons a l ih => intro b; rw [List.foldl_cons, ih, h]

theorem find?_id_map (l : List RoutineRow) (f : RoutineRow → RoutineRow)
    (hf : ∀ r, (f r).id = r.id) (id : String) :
    (l.map f).find? (fun r => decide (r.id = id)) =
      (l.find? (fun r => decide (r.id = id))).map f := by
  induction l with
  | nil => rfl
  | cons a l ih =>
    by_cases h : a.id = id
    · simp [List.find?_cons, hf a, h]
    · simp [List.find?_cons, hf a, h, ih]

/-! ### Lemmas on `updatedAt?` -/

theorem updatedAt?_mapSet (db : DB) (id : String) (t : ℕ) (u : ℕ)
    (f : RoutineRow → RoutineRow)
    (hid : ∀ r, (f r).id = r.id)
    (hset : ∀ r, r.id = id → (f r).updatedAt = t)
    (h : updatedAt? db id = some u) :
    updatedAt? { db with routines := db.routines.map f } id = some t := by
  unfold updatedAt? at *
  rw [show ({ db with routines := db.routines.map f } : DB).routines
        = db.routines.map f from rfl, find?_id_map _ _ hid]
  cases hfind : db.routines.find? (fun r => decide (r.id = id)) with
  | none => rw [hfind] at h; simp at h
  | some r =>
    have hr : r.id = id := by simpa using List.find?_some hfind
    simp [hset r hr]

theorem updatedAt?_mapKeep (db : DB) (id2 : String)
    (f : RoutineRow → RoutineRow)
    (hid : ∀ r, (f r).id = r.id)
    (hkeep : ∀ r, r.id = id2 → f r = r) :
    updatedAt? { db with routines := db.routines.map f } id2 = updatedAt? db id2 := by
  unfold updatedAt?
  rw [show ({ db with routines := db.routines.map f } : DB).routines
        = db.routines.map f from rfl, find?_id_map _ _ hid]
  cases hfind : db.routines.find? (fun r => decide (r.id = id2)) with
  | none => simp
  | some r =>
    have hr : r.id = id2 := by simpa using List.find?_some hfind
    simp [hkeep r hr]

theorem updatedAt?_touch_self (db : DB) (id : String) (t u : ℕ)
    (h : updatedAt? db id = some u) :
    updatedAt? (touchRoutine db id t) id = some t := by
  refine updatedAt?_mapSet db id t u _ ?_ ?_ h
  · intro r; by_cases hr : r.id = id <;> simp [hr]
  · intro r hr; simp [hr]

theorem updatedAt?_touch_other (db : DB) (id id2 : String) (t : ℕ) (h : id2 ≠ id) :
    updatedAt? (touchRoutine db id t) id2 = updatedAt? db id2 := by
  refine updatedAt?_mapKeep db id2 _ ?_ ?_
  · intro r; by_cases hr : r.id = id <;> simp [hr]
  · intro r hr
    have : ¬ r.id = id := by rw [hr]; exact h
    simp [this]

/-! ### Frame lemmas: which tables each statement leaves unchanged -/

theorem applySetPatch_frame (d : DB) (s : SetPatch) :
    (applySetPatch d s).exercises = d.exercises ∧
    (applySetPatch d s).routines = d.routines ∧
    (applySetPatch d s).routine_exercises = d.routine_exercises ∧
    (applySetPatch d s).workouts = d.workouts ∧
    (applySetPatch d s).workout_items = d.workout_items ∧
    (applySetPatch d s).workout_sets = d.workout_sets := by
  unfold applySetPatch; split <;> simp

theorem applyExPatch_frame (d : DB) (ex : ExPatch) :
    (applyExPatch d ex).exercises = d.exercises ∧
    (applyExPatch d ex).routines = d.routines ∧
    (applyExPatch d ex).routine_exercises = d.routine_exercises ∧
    (applyExPatch d ex).workouts = d.workouts ∧
    (applyExPatch d ex).workout_items = d.workout_items ∧
    (applyExPatch d ex).workout_sets = d.workout_sets := by
  unfold applyExPatch
  cases ex.sets with
  | none => simp
  | some sets =>
    refine ⟨?_, ?_, ?_, ?_, ?_, ?_⟩ <;>
      exact foldl_pres _ _ (fun b a => by
        have := applySetPatch_frame b a
        tauto) sets d

theorem foldlExPatch_frame (list : List ExPatch) (d : DB) :
    (list.foldl applyExPatch d).exercises = d.exercises ∧
    (list.foldl applyExPatch d).routines = d.routines ∧
    (list.foldl applyExPatch d).routine_exercises = d.routine_exercises ∧
    (list.foldl applyExPatch d).workouts = d.workouts ∧
    (list.foldl applyExPatch d).workout_items = d.workout_items ∧
    (list.foldl applyExPatch d).workout_sets = d.workout_sets := by
  refine ⟨?_, ?_, ?_, ?_, ?_, ?_⟩ <;>
    exact foldl_pres _ _ (fun b a => by
      have := applyExPatch_frame b a
      tauto) list d

theorem updatedAt?_congr (d1 d2 : DB) (h : d1.routines = d2.routines) (id : String) :
    updatedAt? d1 id = updatedAt? d2 id := by
  unfold updatedAt?; rw [h]

/-! ### The `updatedAt` step lemma -/

theorem updatedAt?_applyMutation (db : DB) (R : String) (m : Mutation) (u : ℕ)
    (hm : m.touches R) (h : updatedAt? db R = some u) :
    updatedAt? (applyMutation db m) R = some m.time := by
  cases m with
  | createExercise newId p => exact hm.elim
  | createRoutine newId name t => exact hm.elim
  | putRoutine id body t =>
    obtain ⟨rfl, hor⟩ := hm
    show updatedAt? (putRoutine db id body t) id = some t
    unfold putRoutine
    have hdb1 : ∃ v, updatedAt?
        (if truthy body.name then
          { db with routines := db.routines.map fun r =>
              if r.id = id then { r with name := body.name.getD "", updatedAt := t } else r }
         else db) id = some v := by
      by_cases hn : truthy body.name
      · refine ⟨t, ?_⟩
        rw [if_pos hn]
        refine updatedAt?_mapSet db id t u _ ?_ ?_ h
        · intro r; by_cases hr : r.id = id <;> simp [hr]
        · intro r hr; simp [hr]
      · exact ⟨u, by rw [if_neg hn]; exact h⟩
    obtain ⟨v, hv⟩ := hdb1
    cases hex : body.exercises with
    | some list =>
      simp only []
      refine updatedAt?_touch_self _ _ _ v ?_
      rw [updatedAt?_congr _ _ (foldlExPatch_frame list _).2.1]
      exact hv
    | none =>
      rcases hor with hn | hsome
      · simp only []
        rw [if_pos (by simp [hn])] at hv ⊢
        refine updatedAt?_mapSet db id t u _ ?_ ?_ h
        · intro r; by_cases hr : r.id = id <;> simp [hr]
        · intro r hr; simp [hr]
      · rw [hex] at hsome; simp at hsome
  | addExercise id exerciseId rexId t =>
    obtain ⟨rfl, htr⟩ := hm
    show updatedAt? (applyMutation db (.addExercise id exerciseId rexId t)) id = some t
    simp only [applyMutation, addRoutineExercise]
    rw [if_pos htr]
    refine updatedAt?_touch_self _ _ _ u ?_
    exact h
  | removeExercise id rexId t =>
    obtain rfl := hm
    exact updatedAt?_touch_self _ _ _ u h
  | addSet id rexId setId reps peso t =>
    obtain rfl := hm
    exact updatedAt?_touch_self _ _ _ u h
  | removeSet id rexId setId t =>
    obtain rfl := hm
    exact updatedAt?_touch_self _ _ _ u h

/-- The timestamp `updatedAt` holds after running a sequence of touching
mutations from initial value `u`: the time of the last one, or `u`. -/
def lastT (u : ℕ) : List Mutation → ℕ
  | [] => u
  | m :: ms => lastT m.time ms

instance (R : String) : DecidablePred (Mutation.touches R) := fun m =>
  match m with
  | .createExercise _ _ => isFalse fun h => h
  | .createRoutine _ _ _ => isFalse fun h => h
  | .putRoutine id body _ =>
    inferInstanceAs (Decidable (id = R ∧
      (truthy body.name = true ∨ body.exercises.isSome = true)))
  | .addExercise id exerciseId _ _ =>
    inferInstanceAs (Decidable (id = R ∧ truthy exerciseId = true))
  | .removeExercise id _ _ => inferInstanceAs (Decidable (id = R))
  | .addSet id _ _ _ _ _ => inferInstanceAs (Decidable (id = R))
  | .removeSet id _ _ _ => inferInstanceAs (Decidable (id = R))

theorem chain_append_left {α : Type _} (r : α → α → Prop) :
    ∀ (xs : List α) (a : α) (ys : List α), List.Chain r a (xs ++ ys) → List.Chain r a xs := by
  intro xs
  induction xs with
  | nil => intro a ys _; exact List.Chain.nil
  | cons x xs ih =>
    intro a ys h
    rw [List.cons_append, List.chain_cons] at h
    exact List.chain_cons.mpr ⟨h.1, ih x ys h.2⟩

theorem updatedAt?_applyAll (R : String) :
    ∀ (ms : List Mutation) (db : DB) (u : ℕ),
      updatedAt? db R = some u → (∀ m ∈ ms, m.touches R) →
      List.Chain (· < ·) u (ms.map Mutation.time) →
      updatedAt? (applyAll db ms) R = some (lastT u ms) ∧ u ≤ lastT u ms ∧
        ∀ m ∈ ms, m.time ≤ lastT u ms := by
  intro ms
  induction ms with
  | nil =>
    intro db u h _ _
    exact ⟨h, le_refl u, by simp⟩
  | cons m ms ih =>
    intro db u h hmut hchain
    rw [List.map_cons, List.chain_cons] at hchain
    have hstep : updatedAt? (applyMutation db m) R = some m.time :=
      updatedAt?_applyMutation db R m u (hmut m (by simp)) h
    have := ih (applyMutation db m) m.time hstep
      (fun x hx => hmut x (by simp [hx])) hchain.2
    refine ⟨this.1, ?_, ?_⟩
    · exact le_trans (le_of_lt hchain.1) this.2.1
    · intro x hx
      rcases List.mem_cons.mp hx with rfl | hx
      · exact this.2.1
      · exact this.2.2 x hx

theorem updatedAt?_strict_step (R : String) :
    ∀ (l₁ : List Mutation) (m : Mutation) (l₂ : List Mutation) (db : DB) (u : ℕ),
      updatedAt? db R = some u → (∀ x ∈ l₁ ++ m :: l₂, x.touches R) →
      List.Chain (· < ·) u ((l₁ ++ m :: l₂).map Mutation.time) →
      ∃ v w, updatedAt? (applyAll db l₁) R = some v ∧
        updatedAt? (applyAll db (l₁ ++ [m])) R = some w ∧ v < w := by
  intro l₁
  induction l₁ with
  | nil =>
    intro m l₂ db u h hmut hchain
    rw [List.nil_append, List.map_cons, List.chain_cons] at hchain
    refine ⟨u, m.time, h, ?_, hchain.1⟩
    exact updatedAt?_applyMutation db R m u (hmut m (by simp)) h
  | cons m₀ l₁ ih =>
    intro m l₂ db u h hmut hchain
    rw [List.cons_append, List.map_cons, List.chain_cons] at hchain
    have hstep : updatedAt? (applyMutation db m₀) R = some m₀.time :=
      updatedAt?_applyMutation db R m₀ u (hmut m₀ (by simp)) h
    have := ih m l₂ (applyMutation db m₀) m₀.time hstep
      (fun x hx => hmut x (by simp [hx])) hchain.2
    simpa [applyAll, List.foldl_cons] using this

theorem updatedAt?_mono_prefixes (R : String) :
    ∀ (l₁ l₂ l₃ : List Mutation) (db : DB) (u : ℕ),
      updatedAt? db R = some u → (∀ x ∈ l₁ ++ l₂ ++ l₃, x.touches R) →
      List.Chain (· < ·) u ((l₁ ++ l₂ ++ l₃).map Mutation.time) →
      ∃ v w, updatedAt? (applyAll db l₁) R = some v ∧
        updatedAt? (applyAll db (l₁ ++ l₂)) R = some w ∧ v ≤ w := by
  intro l₁
  induction l₁ with
  | nil =>
    intro l₂ l₃ db u h hmut hchain
    rw [List.nil_append] at hmut hchain ⊢
    have hchain2 : List.Chain (· < ·) u (l₂.map Mutation.time) := by
      refine chain_append_left _ _ _ (l₃.map Mutation.time) ?_
      rw [← List.map_append]; exact hchain
    have := updatedAt?_applyAll R l₂ db u h
      (fun x hx => hmut x (List.mem_append.mpr (Or.inl hx))) hchain2
    exact ⟨u, lastT u l₂, h, this.1, this.2.1⟩
  | cons m₀ l₁ ih =>
    intro l₂ l₃ db u h hmut hchain
    rw [List.cons_append, List.cons_append, List.map_cons, List.chain_cons] at hchain
    have hstep : updatedAt? (applyMutation db m₀) R = some m₀.time :=
      updatedAt?_applyMutation db R m₀ u (hmut m₀ (by simp)) h
    have := ih l₂ l₃ (applyMutation db m₀) m₀.time hstep
      (fun x hx => hmut x (by simp at hx ⊢; tauto)) hchain.2
    simpa [applyAll, List.foldl_cons] using this

/-! ### Characterization of the set-patching fold of `PUT /api/routines/:id` -/

/-- All set patches of a PUT body, in the order the handler visits them
(entries whose `sets` field is not an array contribute nothing). -/
def flatPatches (list : List ExPatch) : List SetPatch :=
  list.flatMap fun ex => ex.sets.getD []

/-- Effect of one set patch on one row. -/
def patchStep (p : SetPatch) (rs : RoutineSetRow) : RoutineSetRow :=
  if truthy p.id = true ∧ rs.id = p.id.getD "" then
    { rs with reps := p.reps, peso := p.peso }
  else rs

/-- Effect of a patch list on one row, first patch applied first. -/
def applyPatchesFn (ps : List SetPatch) (rs : RoutineSetRow) : RoutineSetRow :=
  ps.foldl (fun cur p => patchStep p cur) rs

/-- The last patch of `ps` that is truthy and names the set id `i`. -/
def lastMatch? (ps : List SetPatch) (i : String) : Option SetPatch :=
  match ps with
  | [] => none
  | p :: rest =>
    match lastMatch? rest i with
    | some q => some q
    | none => if truthy p.id = true ∧ i = p.id.getD "" then some p else none

theorem foldl_applyExPatch (list : List ExPatch) : ∀ d : DB,
    list.foldl applyExPatch d = (flatPatches list).foldl applySetPatch d := by
  induction list with
  | nil => intro d; rfl
  | cons ex list ih =>
    intro d
    rw [List.foldl_cons, ih]
    rw [show flatPatches (ex :: list) = ex.sets.getD [] ++ flatPatches list by
      simp [flatPatches]]
    rw [List.foldl_append]
    congr 1
    cases h : ex.sets <;> simp [applyExPatch, h]

theorem applySetPatch_sets (d : DB) (p : SetPatch) :
    (applySetPatch d p).routine_sets = d.routine_sets.map (patchStep p) := by
  unfold applySetPatch patchStep
  by_cases h : truthy p.id <;> simp [h]

theorem foldl_applySetPatch_sets : ∀ (ps : List SetPatch) (d : DB),
    (ps.foldl applySetPatch d).routine_sets = d.routine_sets.map (applyPatchesFn ps) := by
  intro ps
  induction ps with
  | nil =>
    intro d
    rw [show applyPatchesFn ([] : List SetPatch) = fun rs => rs from funext fun _ => rfl]
    simp
  | cons p ps ih =>
    intro d
    rw [List.foldl_cons, ih, applySetPatch_sets, List.map_map]
    rfl

theorem patchStep_id (p : SetPatch) (rs : RoutineSetRow) : (patchStep p rs).id = rs.id := by
  unfold patchStep; split <;> rfl

theorem applyPatchesFn_eq (ps : List SetPatch) : ∀ rs : RoutineSetRow,
    applyPatchesFn ps rs =
      match lastMatch? ps rs.id with
      | some p => { rs with reps := p.reps, peso := p.peso }
      | none => rs := by
  induction ps with
  | nil => intro rs; rfl
  | cons p ps ih =>
    intro rs
    have hstep : applyPatchesFn (p :: ps) rs = applyPatchesFn ps (patchStep p rs) := rfl
    rw [hstep, ih, patchStep_id]
    show _ = (match lastMatch? (p :: ps) rs.id with
      | some q => { rs with reps := q.reps, peso := q.peso }
      | none => rs)
    rw [show lastMatch? (p :: ps) rs.id =
        (match lastMatch? ps rs.id with
         | some q => some q
         | none => if truthy p.id = true ∧ rs.id = p.id.getD "" then some p else none)
      from rfl]
    cases hl : lastMatch? ps rs.id with
    | some q =>
      simp only []
      unfold patchStep; split <;> rfl
    | none =>
      simp only []
      unfold patchStep
      by_cases hc : truthy p.id = true ∧ rs.id = p.id.getD "" <;> simp [hc]

theorem applyPatchesFn_skip (ps : List SetPatch) : ∀ rs : RoutineSetRow,
    (∀ p ∈ ps, truthy p.id = true → rs.id ≠ p.id.getD "") →
    applyPatchesFn ps rs = rs := by
  induction ps with
  | nil => intro rs _; rfl
  | cons p ps ih =>
    intro rs hrs
    have hstep : applyPatchesFn (p :: ps) rs = applyPatchesFn ps (patchStep p rs) := rfl
    have hp : patchStep p rs = rs := by
      unfold patchStep
      rw [if_neg]
      rintro ⟨h1, h2⟩
      exact hrs p (by simp) h1 h2
    rw [hstep, hp]
    exact ih rs fun q hq => hrs q (by simp [hq])

/-! ### Characterization of `POST /api/workouts` and the workout-table frame -/

theorem recordSets_spec (wi : String) (sid : ℕ → String) :
    ∀ (sets : List WSetPayload) (j : ℕ) (d : DB),
      recordSets wi sid j sets d =
        { d with workout_sets := d.workout_sets ++ workoutSetRowsOf wi sid j sets } := by
  intro sets
  induction sets with
  | nil =>
    intro j d
    show d = { d with workout_sets := d.workout_sets ++ workoutSetRowsOf wi sid j [] }
    simp [workoutSetRowsOf, List.enumFrom]
  | cons st rest ih =>
    intro j d
    rw [recordSets, ih]
    simp [workoutSetRowsOf, List.enumFrom]

theorem recordItems_spec (woId : String) (iid : ℕ → String) (sid : ℕ → ℕ → String) :
    ∀ (items : List WItemPayload) (idx : ℕ) (d : DB),
      recordItems woId iid sid idx items d =
        { d with
          workout_items := d.workout_items ++ workoutItemRows woId iid idx items,
          workout_sets := d.workout_sets ++ workoutSetRows iid sid idx items } := by
  intro items
  induction items with
  | nil =>
    intro idx d
    show d = { d with
      workout_items := d.workout_items ++ workoutItemRows woId iid idx [],
      workout_sets := d.workout_sets ++ workoutSetRows iid sid idx [] }
    simp [workoutItemRows, workoutSetRows, List.enumFrom]
  | cons it rest ih =>
    intro idx d
    rw [recordItems, recordSets_spec, ih]
    simp [workoutItemRows, workoutSetRows, List.enumFrom]

theorem recordWorkout_char (db : DB) (woId : String) (iid : ℕ → String)
    (sid : ℕ → ℕ → String) (s : WorkoutPayload) :
    recordWorkout db woId iid sid s =
      { db with
        workouts := db.workouts ++
          [{ id := woId, routine_id := s.routineId, startedAt := s.startedAt,
             finishedAt := s.finishedAt, durationSec := s.durationSec }],
        workout_items := db.workout_items ++ workoutItemRows woId iid 0 s.items,
        workout_sets := db.workout_sets ++ workoutSetRows iid sid 0 s.items } := by
  unfold recordWorkout
  rw [recordItems_spec]

theorem applyMutation_frame (db : DB) (m : Mutation) :
    (applyMutation db m).workouts = db.workouts ∧
    (applyMutation db m).workout_items = db.workout_items ∧
    (applyMutation db m).workout_sets = db.workout_sets := by
  cases m with
  | createExercise newId p =>
    simp only [applyMutation]
    unfold createExercise
    by_cases h : truthy p.name <;> simp [h]
  | createRoutine newId name t => simp [applyMutation, createRoutine]
  | putRoutine id body t =>
    simp only [applyMutation]
    unfold putRoutine
    have hdb1 : ∀ d : DB, (if truthy body.name then
        { d with routines := d.routines.map fun r =>
            if r.id = id then { r with name := body.name.getD "", updatedAt := t } else r }
        else d).workouts = d.workouts ∧
        (if truthy body.name then
        { d with routines := d.routines.map fun r =>
            if r.id = id then { r with name := body.name.getD "", updatedAt := t } else r }
        else d).workout_items = d.workout_items ∧
        (if truthy body.name then
        { d with routines := d.routines.map fun r =>
            if r.id = id then { r with name := body.name.getD "", updatedAt := t } else r }
        else d).workout_sets = d.workout_sets := by
      intro d; by_cases h : truthy body.name <;> simp [h]
    cases hex : body.exercises with
    | some list =>
      simp only []
      have hf := foldlExPatch_frame list (if truthy body.name then
        { db with routines := db.routines.map fun r =>
            if r.id = id then { r with name := body.name.getD "", updatedAt := t } else r }
        else db)
      have h1 := hdb1 db
      exact ⟨by rw [show ∀ d : DB, (touchRoutine d id t).workouts = d.workouts from fun _ => rfl,
                hf.2.2.2.1, h1.1],
             by rw [show ∀ d : DB, (touchRoutine d id t).workout_items = d.workout_items
                from fun _ => rfl, hf.2.2.2.2.1, h1.2.1],
             by rw [show ∀ d : DB, (touchRoutine d id t).workout_sets = d.workout_sets
                from fun _ => rfl, hf.2.2.2.2.2, h1.2.2]⟩
    | none =>
      simp only []
      exact hdb1 db
  | addExercise id exerciseId rexId t =>
    simp only [applyMutation]
    unfold addRoutineExercise
    by_cases h : truthy exerciseId <;> simp [h, touchRoutine]
  | removeExercise id rexId t => simp [applyMutation, deleteRoutineExercise, touchRoutine]
  | addSet id rexId setId reps peso t => simp [applyMutation, addSet, touchRoutine]
  | removeSet id rexId setId t => simp [applyMutation, deleteSet, touchRoutine]

/-! ### Lemmas on the personal-records query -/

theorem pick_mem : ∀ (rs : List RankedRow) (b : RankedRow), pick b rs ∈ b :: rs := by
  intro rs
  induction rs with
  | nil => intro b; simp [pick]
  | cons r rs ih =>
    intro b
    show pick (if rankLt r b then r else b) rs ∈ b :: r :: rs
    by_cases hc : rankLt r b
    · rw [if_pos hc]
      rcases List.mem_cons.mp (ih r) with h | h <;> simp [h]
    · rw [if_neg hc]
      rcases List.mem_cons.mp (ih b) with h | h <;> simp [h]

theorem pick_min : ∀ (rs : List RankedRow) (b x : RankedRow), x ∈ b :: rs →
    rkey (pick b rs) ≤ rkey x := by
  intro rs
  induction rs with
  | nil =>
    intro b x hx
    rcases List.mem_cons.mp hx with rfl | h
    · exact le_refl _
    · simp at h
  | cons r rs ih =>
    intro b x hx
    have hcb : rkey (if rankLt r b then r else b) ≤ rkey b := by
      by_cases hc : rankLt r b
      · rw [if_pos hc]; exact le_of_lt hc
      · rw [if_neg hc]
    have hcr : rkey (if rankLt r b then r else b) ≤ rkey r := by
      by_cases hc : rankLt r b
      · rw [if_pos hc]
      · rw [if_neg hc]; exact not_lt.mp hc
    have hpick : rkey (pick (if rankLt r b then r else b) rs) ≤
        rkey (if rankLt r b then r else b) := ih _ _ (by simp)
    show rkey (pick (if rankLt r b then r else b) rs) ≤ rkey x
    rcases List.mem_cons.mp hx with rfl | hx2
    · exact le_trans hpick hcb
    · rcases List.mem_cons.mp hx2 with rfl | hx3
      · exact le_trans hpick hcr
      · exact ih _ _ (List.mem_cons.mpr (Or.inr hx3))

theorem minRank?_spec (l : List RankedRow) (w : RankedRow) (h : minRank? l = some w) :
    w ∈ l ∧ ∀ x ∈ l, rkey w ≤ rkey x := by
  cases l with
  | nil => simp [minRank?] at h
  | cons b rs =>
    have hw : pick b rs = w := by
      have : some (pick b rs) = some w := h
      exact Option.some.inj this
    subst hw
    exact ⟨pick_mem rs b, fun x hx => pick_min rs b x hx⟩

theorem minRank?_isSome (l : List RankedRow) (h : l ≠ []) : ∃ w, minRank? l = some w := by
  cases l with
  | nil => exact absurd rfl h
  | cons b rs => exact ⟨pick b rs, rfl⟩

theorem mem_joinRows (db : DB) (r : RankedRow) :
    r ∈ joinRows db ↔ ∃ ws ∈ db.workout_sets, ∃ wi ∈ db.workout_items,
      wi.id = ws.workout_item_id ∧
      r = { exercise_id := wi.exercise_id, name := wi.name, bodyPart := wi.bodyPart,
            image := wi.image, peso := ws.peso, reps := ws.reps } := by
  unfold joinRows
  rw [List.mem_flatMap]
  constructor
  · rintro ⟨ws, hws, hr⟩
    rw [List.mem_map] at hr
    obtain ⟨wi, hwi, rfl⟩ := hr
    rw [List.mem_filter] at hwi
    exact ⟨ws, hws, wi, hwi.1, by simpa using hwi.2, rfl⟩
  · rintro ⟨ws, hws, wi, hwi, hid, rfl⟩
    exact ⟨ws, hws, List.mem_map.mpr ⟨wi, List.mem_filter.mpr ⟨hwi, by simpa using hid⟩, rfl⟩⟩

theorem mem_partitionOf (db : DB) (k : Option String) (r : RankedRow) :
    r ∈ partitionOf db k ↔ r ∈ joinRows db ∧ r.exercise_id = k := by
  unfold partitionOf
  rw [List.mem_filter]
  simp

theorem mem_marksUnsorted (db : DB) (m : MarkRow) :
    m ∈ marksUnsorted db ↔
      ∃ k w, minRank? (partitionOf db k) = some w ∧ m = mkMark w := by
  unfold marksUnsorted
  rw [List.mem_filterMap]
  constructor
  · rintro ⟨k, _, hm⟩
    rw [Option.map_eq_some'] at hm
    obtain ⟨w, hw, rfl⟩ := hm
    exact ⟨k, w, hw, rfl⟩
  · rintro ⟨k, w, hw, rfl⟩
    refine ⟨k, ?_, by rw [hw]; rfl⟩
    have hwmem := (minRank?_spec _ _ hw).1
    rw [mem_partitionOf] at hwmem
    rw [List.mem_dedup, List.mem_map]
    exact ⟨w, hwmem.1, hwmem.2⟩

theorem mem_marks (db : DB) (m : MarkRow) : m ∈ marks db ↔ m ∈ marksUnsorted db := by
  unfold marks
  simp

theorem rkey_eq_fields {a b : RankedRow} (h : rkey a = rkey b) :
    a.peso = b.peso ∧ a.reps.getD 0 = b.reps.getD 0 := by
  unfold rkey at h
  have h1 := toLex_inj.mp h
  rw [Prod.mk.injEq] at h1
  have h2 := toLex_inj.mp h1.2
  rw [Prod.mk.injEq] at h2
  have h3 := toLex_inj.mp h2.2
  rw [Prod.mk.injEq] at h3
  have hreps : a.reps.getD 0 = b.reps.getD 0 := neg_inj.mp h3.2
  have hgetD : a.peso.getD 0 = b.peso.getD 0 := neg_inj.mp h2.1
  refine ⟨?_, hreps⟩
  by_cases ha : a.peso = none
  · have hb : b.peso = none := by
      by_contra hb
      rw [if_pos ha, if_neg hb] at h1
      exact one_ne_zero h1.1
    rw [ha, hb]
  · have hb : ¬ b.peso = none := by
      intro hb
      rw [if_neg ha, if_pos hb] at h1
      exact one_ne_zero h1.1.symm
    obtain ⟨x, hx⟩ := Option.ne_none_iff_exists.mp ha
    obtain ⟨y, hy⟩ := Option.ne_none_iff_exists.mp hb
    rw [← hx, ← hy] at hgetD ⊢
    simpa using hgetD

/-- Two sessions each holding one set of exercise `E`: (weight 100, reps 5)
and (weight 100, reps 8). -/
def twoSessionDb : DB :=
  { exercises := [], routines := [], routine_exercises := [], routine_sets := [],
    workouts := [⟨"w1", none, none, none, none⟩, ⟨"w2", none, none, none, none⟩],
    workout_items := [⟨"i1", "w1", some "E", some "Press", none, none, 0⟩,
                      ⟨"i2", "w2", some "E", some "Press", none, none, 0⟩],
    workout_sets := [⟨"s1", "i1", some 5, some 100, true⟩,
                     ⟨"s2", "i2", some 8, some 100, true⟩] }

/-- One session whose only set for exercise `E` has null weight and reps. -/
def nullWeightDb : DB :=
  { exercises := [], routines := [], routine_exercises := [], routine_sets := [],
    workouts := [⟨"w1", none, none, none, none⟩],
    workout_items := [⟨"i1", "w1", some "E", some "Curl", none, none, 0⟩],
    workout_sets := [⟨"s1", "i1", none, none, false⟩] }

/-- The single personal-record row of `nullWeightDb`. -/
def nullMark : MarkRow := ⟨some "E", some "Curl", none, none, none, 0⟩

/-- Claim C1: for every collection of recorded workout sets mentioning an
exercise `e`, the personal-records endpoint reports for `e` the weight and
reps of the set that is top-ranked under the ordering weight descending
nulls last, then reps descending nulls last; on the two-session example
with sets (100, 5) and (100, 8) the PR is weight 100 with reps 8; and the
output is sorted by name ascending. -/
theorem marks_pr_top_ranked :
    (∀ (db : DB) (e : String), partitionOf db (some e) ≠ [] →
      ∃ m ∈ marks db, m.exercise_id = some e ∧
        ∀ w ∈ partitionOf db (some e),
          (∀ r ∈ partitionOf db (some e), ¬ rankLt r w) →
          m.pr_weight = w.peso ∧ m.reps_at_pr = w.reps.getD 0)
    ∧ (∀ db : DB, List.Sorted nameLe (marks db))
    ∧ marks twoSessionDb =
        [{ exercise_id := some "E", name := some "Press", bodyPart := none, image := none,
           pr_weight := some 100, reps_at_pr := 8 }] := by
  refine ⟨?_, ?_, by decide⟩
  · intro db e hne
    obtain ⟨w₀, hw₀⟩ := minRank?_isSome _ hne
    have hspec := minRank?_spec _ _ hw₀
    have hw₀mem := hspec.1
    rw [mem_partitionOf] at hw₀mem
    refine ⟨mkMark w₀, ?_, hw₀mem.2, ?_⟩
    · rw [mem_marks, mem_marksUnsorted]
      exact ⟨some e, w₀, hw₀, rfl⟩
    · intro w hw hmin
      have h1 : rkey w₀ ≤ rkey w := hspec.2 w hw
      have h2 : ¬ rkey w₀ < rkey w := hmin w₀ hspec.1
      have heq : rkey w₀ = rkey w := le_antisymm h1 (not_lt.mp h2)
      exact ⟨(rkey_eq_fields heq).1, (rkey_eq_fields heq).2⟩
  · intro db
    exact List.sorted_insertionSort nameLe _

theorem marks_pr_top_ranked_witness :
    ∃ m ∈ marks twoSessionDb, m.exercise_id = some "E" ∧
      ∀ w ∈ partitionOf twoSessionDb (some "E"),
        (∀ r ∈ partitionOf twoSessionDb (some "E"), ¬ rankLt r w) →
        m.pr_weight = w.peso ∧ m.reps_at_pr = w.reps.getD 0 :=
  marks_pr_top_ranked.1 twoSessionDb "E" (by decide)

/-- Claim C8: an exercise appears in the personal-records output iff it
appears in at least one historical workout set; an exercise all of whose
sets have null weight is still present, its row reporting a null weight. -/
theorem marks_membership_iff :
    ∀ (db : DB) (e : String),
      ((∃ m ∈ marks db, m.exercise_id = some e) ↔
        (∃ ws ∈ db.workout_sets, ∃ wi ∈ db.workout_items,
          wi.id = ws.workout_item_id ∧ wi.exercise_id = some e))
      ∧ (partitionOf db (some e) ≠ [] →
        (∀ r ∈ partitionOf db (some e), r.peso = none) →
        ∀ m ∈ marks db, m.exercise_id = some e → m.pr_weight = none) := by
  intro db e
  constructor
  · constructor
    · rintro ⟨m, hm, hexid⟩
      rw [mem_marks, mem_marksUnsorted] at hm
      obtain ⟨k, w, hw, rfl⟩ := hm
      have hwmem := (minRank?_spec _ _ hw).1
      rw [mem_partitionOf] at hwmem
      have hk : w.exercise_id = some e := hexid
      have hjoin := hwmem.1
      rw [mem_joinRows] at hjoin
      obtain ⟨ws, hws, wi, hwi, hid, rfl⟩ := hjoin
      exact ⟨ws, hws, wi, hwi, hid, hk⟩
    · rintro ⟨ws, hws, wi, hwi, hid, hexid⟩
      have hrmem : ({ exercise_id := wi.exercise_id,
                      name := wi.name,
                      bodyPart := wi.bodyPart,
                      image := wi.image,
                      peso := ws.peso,
                      reps := ws.reps } : RankedRow) ∈ joinRows db :=
        (mem_joinRows db _).mpr ⟨ws, hws, wi, hwi, hid, rfl⟩
      have hrpart : ({ exercise_id := wi.exercise_id,
                       name := wi.name,
                       bodyPart := wi.bodyPart,
                       image := wi.image,
                       peso := ws.peso,
                       reps := ws.reps } : RankedRow) ∈ partitionOf db (some e) :=
        (mem_partitionOf db (some e) _).mpr ⟨hrmem, hexid⟩
      have hne : partitionOf db (some e) ≠ [] := by
        intro h0
        rw [h0] at hrpart
        simp at hrpart
      obtain ⟨w₀, hw₀⟩ := minRank?_isSome _ hne
      have hw₀mem := (minRank?_spec _ _ hw₀).1
      rw [mem_partitionOf] at hw₀mem
      refine ⟨mkMark w₀, ?_, hw₀mem.2⟩
      rw [mem_marks, mem_marksUnsorted]
      exact ⟨some e, w₀, hw₀, rfl⟩
  · intro hne hnull m hm hexid
    rw [mem_marks, mem_marksUnsorted] at hm
    obtain ⟨k, w, hw, rfl⟩ := hm
    have hwmem := (minRank?_spec _ _ hw).1
    rw [mem_partitionOf] at hwmem
    have hexid2 : w.exercise_id = some e := hexid
    have hk : k = some e := by rw [← hwmem.2]; exact hexid2
    subst hk
    exact hnull w ((mem_partitionOf db (some e) w).mpr ⟨hwmem.1, hwmem.2⟩)

theorem marks_membership_iff_witness :
    ∃ ws ∈ nullWeightDb.workout_sets, ∃ wi ∈ nullWeightDb.workout_items,
      wi.id = ws.workout_item_id ∧ wi.exercise_id = some "E" :=
  (marks_membership_iff nullWeightDb "E").1.mp (by decide)

/-- Claim C10: every personal-record row carries a non-null `reps_at_pr`
obtained by coalescing the winning set's reps with 0, while `pr_weight`
is null exactly when the winning set's weight is null. -/
theorem marks_reps_never_null :
    ∀ (db : DB) (m : MarkRow), m ∈ marks db →
      ∃ w ∈ joinRows db,
        (∀ r ∈ partitionOf db m.exercise_id, rkey w ≤ rkey r) ∧
        m.pr_weight = w.peso ∧ m.reps_at_pr = w.reps.getD 0 ∧
        (w.reps = none → m.reps_at_pr = 0) ∧ (w.peso = none → m.pr_weight = none) := by
  intro db m hm
  rw [mem_marks, mem_marksUnsorted] at hm
  obtain ⟨k, w, hw, rfl⟩ := hm
  have hspec := minRank?_spec _ _ hw
  have hwmem := hspec.1
  rw [mem_partitionOf] at hwmem
  refine ⟨w, hwmem.1, ?_, rfl, rfl, ?_, ?_⟩
  · intro r hr
    apply hspec.2
    have hpart : partitionOf db (mkMark w).exercise_id = partitionOf db k := by
      rw [show (mkMark w).exercise_id = k from hwmem.2]
    rw [hpart] at hr
    exact hr
  · intro h
    show w.reps.getD 0 = 0
    rw [h]
    rfl
  · intro h
    exact h

theorem marks_reps_never_null_witness :
    ∃ w ∈ joinRows nullWeightDb,
      (∀ r ∈ partitionOf nullWeightDb nullMark.exercise_id, rkey w ≤ rkey r) ∧
      nullMark.pr_weight = w.peso ∧ nullMark.reps_at_pr = w.reps.getD 0 ∧
      (w.reps = none → nullMark.reps_at_pr = 0) ∧
      (w.peso = none → nullMark.pr_weight = none) :=
  marks_reps_never_null nullWeightDb nullMark (by decide)

/-- A routine `R` whose two links sit at order positions 1 and 3. -/
def gapDb : DB :=
  { exercises := [], routines := [⟨"R", "r", 0, 0⟩],
    routine_exercises := [⟨"x1", "R", "e1", 1⟩, ⟨"x2", "R", "e2", 3⟩],
    routine_sets := [], workouts := [], workout_items := [], workout_sets := [] }

/-- Claim C2: `POST /api/routines/:id/exercises` fails when `exerciseId` is
missing; otherwise it inserts the link at order position max existing + 1
(1 on an empty routine, 4 when positions are 1 and 3), touches `updatedAt`,
and returns the refreshed full routine. -/
theorem addExerciseToRoutine_spec :
    (∀ (db : DB) (id rexId : String) (t : ℕ),
      addRoutineExercise db id none rexId t = .error "exerciseId required")
    ∧ (∀ (db : DB) (id rexId : String) (exerciseId : Option String) (t u : ℕ),
        truthy exerciseId = true → updatedAt? db id = some u →
        ∃ r d, addRoutineExercise db id exerciseId rexId t = .ok (r, d) ∧
          d.routine_exercises = db.routine_exercises ++
            [{ id := rexId, routine_id := id, exercise_id := exerciseId.getD "",
               order_index := maxOrder db id + 1 }] ∧
          ((db.routine_exercises.filter fun re => decide (re.routine_id = id)) = [] →
            maxOrder db id + 1 = 1) ∧
          (((db.routine_exercises.filter fun re => decide (re.routine_id = id)).map
              fun re => re.order_index) = [1, 3] → maxOrder db id + 1 = 4) ∧
          updatedAt? d id = some t ∧ r = loadRoutineFull d id) := by
  constructor
  · intro db id rexId t
    rfl
  · intro db id rexId exerciseId t u htr h
    have hok : addRoutineExercise db id exerciseId rexId t =
        .ok (loadRoutineFull (touchRoutine
            { db with routine_exercises := db.routine_exercises ++
                [{ id := rexId, routine_id := id, exercise_id := exerciseId.getD "",
                   order_index := maxOrder db id + 1 }] } id t) id,
          touchRoutine
            { db with routine_exercises := db.routine_exercises ++
                [{ id := rexId, routine_id := id, exercise_id := exerciseId.getD "",
                   order_index := maxOrder db id + 1 }] } id t) := by
      unfold addRoutineExercise
      rw [if_pos htr]
    refine ⟨_, _, hok, rfl, ?_, ?_, ?_, rfl⟩
    · intro hempty
      unfold maxOrder
      rw [hempty]
      decide
    · intro hmap
      unfold maxOrder
      rw [hmap]
      decide
    · exact updatedAt?_touch_self _ _ _ u h

theorem addExerciseToRoutine_spec_witness :
    ∃ r d, addRoutineExercise gapDb "R" (some "e3") "x3" 7 = .ok (r, d) ∧
      d.routine_exercises = gapDb.routine_exercises ++
        [{ id := "x3", routine_id := "R", exercise_id := (some "e3").getD "",
           order_index := maxOrder gapDb "R" + 1 }] ∧
      ((gapDb.routine_exercises.filter fun re => decide (re.routine_id = "R")) = [] →
        maxOrder gapDb "R" + 1 = 1) ∧
      (((gapDb.routine_exercises.filter fun re => decide (re.routine_id = "R")).map
          fun re => re.order_index) = [1, 3] → maxOrder gapDb "R" + 1 = 4) ∧
      updatedAt? d "R" = some 7 ∧ r = loadRoutineFull d "R" :=
  addExerciseToRoutine_spec.2 gapDb "R" "x3" (some "e3") 7 0 (by decide) (by decide)

/-- Claim C4: `DELETE /api/routines/:id/exercises/:rexId` leaves no set
owned by the link queryable, removes the link of that routine, and touches
`updatedAt` with no existence check on the link. -/
theorem removeExerciseFromRoutine_spec :
    ∀ (db : DB) (R X : String) (t u : ℕ), updatedAt? db R = some u →
      (∀ s ∈ (deleteRoutineExercise db R X t).routine_sets, s.routine_exercise_id ≠ X)
      ∧ (∀ re ∈ (deleteRoutineExercise db R X t).routine_exercises,
          ¬ (re.id = X ∧ re.routine_id = R))
      ∧ updatedAt? (deleteRoutineExercise db R X t) R = some t := by
  intro db R X t u h
  refine ⟨?_, ?_, ?_⟩
  · intro s hs
    have hs2 : s ∈ db.routine_sets.filter fun s =>
        decide (¬ s.routine_exercise_id = X) := hs
    rw [List.mem_filter] at hs2
    simpa using hs2.2
  · intro re hre
    have hre2 : re ∈ db.routine_exercises.filter fun re =>
        decide (¬ (re.id = X ∧ re.routine_id = R)) := hre
    rw [List.mem_filter] at hre2
    exact of_decide_eq_true hre2.2
  · exact updatedAt?_touch_self _ _ _ u h

theorem removeExerciseFromRoutine_spec_witness :
    (∀ s ∈ (deleteRoutineExercise gapDb "R" "ghost" 9).routine_sets,
      s.routine_exercise_id ≠ "ghost")
    ∧ (∀ re ∈ (deleteRoutineExercise gapDb "R" "ghost" 9).routine_exercises,
        ¬ (re.id = "ghost" ∧ re.routine_id = "R"))
    ∧ updatedAt? (deleteRoutineExercise gapDb "R" "ghost" 9) "R" = some 9 :=
  removeExerciseFromRoutine_spec gapDb "R" "ghost" 9 0 (by decide)

/-- Two routines where the link `x1` belongs to `R2`, not `R1`. -/
def crossDb : DB :=
  { exercises := [], routines := [⟨"R1", "a", 0, 0⟩, ⟨"R2", "b", 0, 0⟩],
    routine_exercises := [⟨"x1", "R2", "e1", 1⟩],
    routine_sets := [⟨"s1", "x1", none, none⟩],
    workouts := [], workout_items := [], workout_sets := [] }

/-- Claim C9: calling the remove-exercise endpoint with the wrong routine id
strips the link's sets (keyed by link id alone) yet leaves the link in
place, touching the named routine's `updatedAt` and not the owner's. -/
theorem removeExercise_cross_routine :
    ∀ (db : DB) (R1 : String) (X : RoutineExerciseRow) (t u1 u2 : ℕ),
      X ∈ db.routine_exercises → X.routine_id ≠ R1 →
      updatedAt? db R1 = some u1 → updatedAt? db X.routine_id = some u2 →
      (∀ s ∈ (deleteRoutineExercise db R1 X.id t).routine_sets,
        s.routine_exercise_id ≠ X.id)
      ∧ X ∈ (deleteRoutineExercise db R1 X.id t).routine_exercises
      ∧ updatedAt? (deleteRoutineExercise db R1 X.id t) R1 = some t
      ∧ updatedAt? (deleteRoutineExercise db R1 X.id t) X.routine_id = some u2 := by
  intro db R1 X t u1 u2 hX hne hu1 hu2
  refine ⟨?_, ?_, ?_, ?_⟩
  · intro s hs
    have hs2 : s ∈ db.routine_sets.filter fun s =>
        decide (¬ s.routine_exercise_id = X.id) := hs
    rw [List.mem_filter] at hs2
    simpa using hs2.2
  · show X ∈ db.routine_exercises.filter fun re =>
      decide (¬ (re.id = X.id ∧ re.routine_id = R1))
    rw [List.mem_filter]
    refine ⟨hX, ?_⟩
    simp [hne]
  · exact updatedAt?_touch_self _ _ _ u1 hu1
  · have hother := updatedAt?_touch_other
      { db with
        routine_sets := db.routine_sets.filter fun s =>
          decide (¬ s.routine_exercise_id = X.id),
        routine_exercises := db.routine_exercises.filter fun re =>
          decide (¬ (re.id = X.id ∧ re.routine_id = R1)) } R1 X.routine_id t hne
    exact hother.trans hu2

theorem removeExercise_cross_routine_witness :
    (∀ s ∈ (deleteRoutineExercise crossDb "R1" (⟨"x1", "R2", "e1", 1⟩ :
        RoutineExerciseRow).id 9).routine_sets,
      s.routine_exercise_id ≠ (⟨"x1", "R2", "e1", 1⟩ : RoutineExerciseRow).id)
    ∧ (⟨"x1", "R2", "e1", 1⟩ : RoutineExerciseRow) ∈
        (deleteRoutineExercise crossDb "R1" (⟨"x1", "R2", "e1", 1⟩ :
          RoutineExerciseRow).id 9).routine_exercises
    ∧ updatedAt? (deleteRoutineExercise crossDb "R1" (⟨"x1", "R2", "e1", 1⟩ :
        RoutineExerciseRow).id 9) "R1" = some 9
    ∧ updatedAt? (deleteRoutineExercise crossDb "R1" (⟨"x1", "R2", "e1", 1⟩ :
        RoutineExerciseRow).id 9) (⟨"x1", "R2", "e1", 1⟩ :
        RoutineExerciseRow).routine_id = some 0 :=
  removeExercise_cross_routine crossDb "R1" ⟨"x1", "R2", "e1", 1⟩ 9 0 0
    (by decide) (by decide) (by decide) (by decide)

/-- Claim C5: workout-session data is write-once: `POST /api/workouts`
persists the session row, its items at their list positions and all their
sets by appending to the three workout tables, and no routine or exercise
mutation changes any row of those tables. -/
theorem workout_write_once :
    (∀ (db : DB) (m : Mutation),
      (applyMutation db m).workouts = db.workouts ∧
      (applyMutation db m).workout_items = db.workout_items ∧
      (applyMutation db m).workout_sets = db.workout_sets)
    ∧ (∀ (db : DB) (woId : String) (iid : ℕ → String) (sid : ℕ → ℕ → String)
        (s : WorkoutPayload),
        recordWorkout db woId iid sid s =
          { db with
            workouts := db.workouts ++
              [{ id := woId, routine_id := s.routineId, startedAt := s.startedAt,
                 finishedAt := s.finishedAt, durationSec := s.durationSec }],
            workout_items := db.workout_items ++ workoutItemRows woId iid 0 s.items,
            workout_sets := db.workout_sets ++ workoutSetRows iid sid 0 s.items }) :=
  ⟨applyMutation_frame, recordWorkout_char⟩

/-- Claim C6: `PUT /api/routines/:id` with an `exercises` array applies each
provided set patch by set identity (last write wins), silently skips
patches naming unknown or missing set ids, and touches the routine's
`updatedAt` once per call even when zero sets change. -/
theorem updateSets_spec :
    ∀ (db : DB) (id : String) (body : PutBody) (t u : ℕ) (l : List ExPatch),
      truthy body.name = false → body.exercises = some l → updatedAt? db id = some u →
      (putRoutine db id body t).routine_sets =
          db.routine_sets.map (applyPatchesFn (flatPatches l))
      ∧ (∀ rs ∈ db.routine_sets,
          applyPatchesFn (flatPatches l) rs =
            match lastMatch? (flatPatches l) rs.id with
            | some p => { rs with reps := p.reps, peso := p.peso }
            | none => rs)
      ∧ ((∀ p ∈ flatPatches l, truthy p.id = true →
            ∀ rs ∈ db.routine_sets, rs.id ≠ p.id.getD "") →
          (putRoutine db id body t).routine_sets = db.routine_sets)
      ∧ updatedAt? (putRoutine db id body t) id = some t := by
  intro db id body t u l hname hex h
  have hcond : ¬ (truthy body.name = true) := by rw [hname]; simp
  have hput : putRoutine db id body t = touchRoutine (l.foldl applyExPatch db) id t := by
    unfold putRoutine
    rw [hex, if_neg hcond]
  have hsets : (putRoutine db id body t).routine_sets =
      db.routine_sets.map (applyPatchesFn (flatPatches l)) := by
    rw [hput]
    show (l.foldl applyExPatch db).routine_sets = _
    rw [foldl_applyExPatch, foldl_applySetPatch_sets]
  refine ⟨hsets, ?_, ?_, ?_⟩
  · intro rs _
    exact applyPatchesFn_eq (flatPatches l) rs
  · intro hskip
    rw [hsets]
    have hid : ∀ rs ∈ db.routine_sets, applyPatchesFn (flatPatches l) rs = rs := by
      intro rs hrs
      exact applyPatchesFn_skip _ rs fun p hp htr => hskip p hp htr rs hrs
    calc db.routine_sets.map (applyPatchesFn (flatPatches l))
        = db.routine_sets.map (fun rs => rs) := List.map_congr_left hid
      _ = db.routine_sets := by simp
  · rw [hput]
    refine updatedAt?_touch_self _ _ _ u ?_
    rw [updatedAt?_congr (l.foldl applyExPatch db) db (foldlExPatch_frame l db).2.1]
    exact h

/-- A routine `R` owning the single set `s1` through link `x1`. -/
def setsDb : DB :=
  { exercises := [], routines := [⟨"R", "r", 0, 0⟩],
    routine_exercises := [⟨"x1", "R", "e1", 1⟩],
    routine_sets := [⟨"s1", "x1", none, none⟩],
    workouts := [], workout_items := [], workout_sets := [] }

/-- A PUT body patching set `s1` and naming the unknown set `zz`. -/
def setsBody : PutBody :=
  { name := none,
    exercises := some [⟨some [⟨some "s1", some 10, some 50⟩, ⟨some "zz", some 3, none⟩]⟩] }

theorem updateSets_spec_witness :
    updatedAt? (putRoutine setsDb "R" setsBody 5) "R" = some 5 :=
  (updateSets_spec setsDb "R" setsBody 5 0
    [⟨some [⟨some "s1", some 10, some 50⟩, ⟨some "zz", some 3, none⟩]⟩]
    rfl rfl (by decide)).2.2.2

/-- Claim C7 counterexample: the name check precedes trimming, so the
whitespace-only name, blank after trimming, is accepted rather than
rejected, and the stored name is the empty string. -/
theorem createExercise_whitespace_ok :
    jsTrim " " = "" ∧
    createExercise DB.empty "cus_x" ⟨some " ", none, none, none, none, none⟩ =
      .ok (⟨"cus_x", "", some "", some "", some "", some "", some "", 1⟩,
        { DB.empty with
          exercises := [⟨"cus_x", "", some "", some "", some "", some "", some "", 1⟩] }) :=
  ⟨by decide, by rfl⟩

/-- Claim C7 (amended): creation fails exactly when the supplied name is
absent or the empty string, before any trimming; on success the stored
name is trimmed, every other omitted field defaults to the empty string,
and the created exercise is always marked custom. -/
theorem createExercise_spec :
    ∀ (db : DB) (newId : String) (p : ExercisePayload),
      ((∃ msg, createExercise db newId p = .error msg) ↔ truthy p.name = false)
      ∧ (∀ s, p.name = some s → s ≠ "" →
          ∃ ex d, createExercise db newId p = .ok (ex, d) ∧
            ex.name = jsTrim s ∧ ex.isCustom = 1 ∧
            ex.image = some (orDefault p.image "") ∧
            ex.bodyPart = some (orDefault p.bodyPart "") ∧
            ex.primaryMuscles = some (orDefault p.primaryMuscles "") ∧
            ex.secondaryMuscles = some (orDefault p.secondaryMuscles "") ∧
            ex.equipment = some (orDefault p.equipment "") ∧
            (p.image = none → ex.image = some "") ∧
            d.exercises = db.exercises ++ [ex]) := by
  intro db newId p
  constructor
  · constructor
    · rintro ⟨msg, hmsg⟩
      cases htcase : truthy p.name with
      | false => rfl
      | true =>
        unfold createExercise at hmsg
        rw [if_pos htcase] at hmsg
        exact Except.noConfusion hmsg
    · intro hfalse
      refine ⟨"name required", ?_⟩
      unfold createExercise
      rw [if_neg (by rw [hfalse]; simp)]
  · intro s hs hsne
    have htr : truthy p.name = true := by
      rw [hs]
      simpa [truthy] using hsne
    have hok : createExercise db newId p =
        .ok ({ id := newId,
               name := jsTrim (p.name.getD ""),
               image := some (orDefault p.image ""),
               bodyPart := some (orDefault p.bodyPart ""),
               primaryMuscles := some (orDefault p.primaryMuscles ""),
               secondaryMuscles := some (orDefault p.secondaryMuscles ""),
               equipment := some (orDefault p.equipment ""),
               isCustom := 1 },
          { db with exercises := db.exercises ++
              [{ id := newId,
                 name := jsTrim (p.name.getD ""),
                 image := some (orDefault p.image ""),
                 bodyPart := some (orDefault p.bodyPart ""),
                 primaryMuscles := some (orDefault p.primaryMuscles ""),
                 secondaryMuscles := some (orDefault p.secondaryMuscles ""),
                 equipment := some (orDefault p.equipment ""),
                 isCustom := 1 }] }) := by
      unfold createExercise
      rw [if_pos htr]
    refine ⟨_, _, hok, ?_, rfl, rfl, rfl, rfl, rfl, rfl, ?_, rfl⟩
    · show jsTrim (p.name.getD "") = jsTrim s
      rw [hs]
      rfl
    · intro himg
      show some (orDefault p.image "") = some ""
      rw [himg]
      rfl

theorem createExercise_spec_witness :
    ∃ ex d, createExercise DB.empty "cus_y"
        ⟨some " Bench ", none, none, none, none, none⟩ = .ok (ex, d) ∧
      ex.name = jsTrim " Bench " ∧ ex.isCustom = 1 ∧
      ex.image = some (orDefault none "") ∧
      ex.bodyPart = some (orDefault none "") ∧
      ex.primaryMuscles = some (orDefault none "") ∧
      ex.secondaryMuscles = some (orDefault none "") ∧
      ex.equipment = some (orDefault none "") ∧
      ((none : Option String) = none → ex.image = some "") ∧
      d.exercises = DB.empty.exercises ++ [ex] :=
  (createExercise_spec DB.empty "cus_y"
    ⟨some " Bench ", none, none, none, none, none⟩).2 " Bench " rfl (by decide)

/-- Claim C3: along any sequence of set/exercise mutations of a routine
(at strictly increasing request times exceeding the initial value),
`updatedAt` is strictly greater after each mutation than before it, is
non-decreasing between any two prefixes, and ends at least as large as
the time of every structural change in the sequence. -/
theorem routine_updatedAt_monotone :
    ∀ (db : DB) (R : String) (u0 : ℕ) (ms : List Mutation),
      updatedAt? db R = some u0 → (∀ m ∈ ms, m.touches R) →
      List.Chain (· < ·) u0 (ms.map Mutation.time) →
      (∀ l₁ m l₂, ms = l₁ ++ m :: l₂ →
        ∃ v w, updatedAt? (applyAll db l₁) R = some v ∧
          updatedAt? (applyAll db (l₁ ++ [m])) R = some w ∧ v < w)
      ∧ (∀ l₁ l₂ l₃, ms = l₁ ++ l₂ ++ l₃ →
        ∃ v w, updatedAt? (applyAll db l₁) R = some v ∧
          updatedAt? (applyAll db (l₁ ++ l₂)) R = some w ∧ v ≤ w)
      ∧ (∀ m ∈ ms, ∃ w, updatedAt? (applyAll db ms) R = some w ∧ m.time ≤ w) := by
  intro db R u0 ms h hmut hchain
  refine ⟨?_, ?_, ?_⟩
  · intro l₁ m l₂ hsplit
    subst hsplit
    exact updatedAt?_strict_step R l₁ m l₂ db u0 h hmut hchain
  · intro l₁ l₂ l₃ hsplit
    subst hsplit
    exact updatedAt?_mono_prefixes R l₁ l₂ l₃ db u0 h hmut hchain
  · intro m hm
    have hall := updatedAt?_applyAll R ms db u0 h hmut hchain
    exact ⟨lastT u0 ms, hall.1, hall.2.2 m hm⟩

/-- The two-mutation sequence used to witness the monotonicity claim. -/
def seqMs : List Mutation :=
  [.addSet "R" "x1" "s9" none none 1, .removeSet "R" "x1" "s9" 2]

theorem routine_updatedAt_monotone_witness :
    ∃ v w, updatedAt? (applyAll setsDb [Mutation.addSet "R" "x1" "s9" none none 1])
        "R" = some v ∧
      updatedAt? (applyAll setsDb ([Mutation.addSet "R" "x1" "s9" none none 1] ++
        [Mutation.removeSet "R" "x1" "s9" 2])) "R" = some w ∧ v < w :=
  (routine_updatedAt_monotone setsDb "R" 0 seqMs (by decide) (by decide)
      (List.Chain.cons (by decide) (List.Chain.cons (by decide) List.Chain.nil))).1
    [Mutation.addSet "R" "x1" "s9" none none 1] (Mutation.removeSet "R" "x1" "s9" 2) [] rfl

end Gym
